import Mathlib

/-!
# Verification of the computer-setup provisioning workflow

A shallow embedding, in Lean 4, of the core components of the
`computer_setup` Python package: the secret protector (`security.py`),
the ledger client (`sheets.py`), the state store (`state.py`), the
configuration helpers (`config.py`), and the phase-2 orchestration
decisions (`cli.py`).  Pure Python functions become Lean functions;
file-system and spreadsheet effects become explicit state passing; the
external DPAPI facility becomes an abstract function pair constrained by
its platform contract.  Machine strings are `List Char` / `String`;
bytes are `Nat` values below 256.
-/

namespace ComputerSetup

/-! ## Python string primitives

Models of the Python `str` methods the sources rely on.  `lower` is
modelled on the ASCII range (the only range the program's own data —
domain keys, user slugs, account names — exercises); `strip` uses the
six ASCII whitespace characters Python strips. -/

/-- The six ASCII characters Python's `str.strip()` removes. -/
def pyIsSpace (c : Char) : Bool :=
  c = ' ' || c = '\t' || c = '\n' || c = '\r' || c = '\x0b' || c = '\x0c'

/-- ASCII model of Python `str.lower()` on one character. -/
def pyLowerChar (c : Char) : Char :=
  if 'A' ≤ c ∧ c ≤ 'Z' then Char.ofNat (c.toNat + 32) else c

/-- ASCII model of Python `str.lower()`. -/
def pyLowerList (l : List Char) : List Char := l.map pyLowerChar

/-- Python `str.strip()` restricted to a given predicate: drop matching
characters from both ends. -/
def pyStripWith (p : Char → Bool) (l : List Char) : List Char :=
  ((l.dropWhile p).reverse.dropWhile p).reverse

/-- Python `str.strip()` (whitespace from both ends). -/
def pyStripList (l : List Char) : List Char := pyStripWith pyIsSpace l

/-- String-level wrapper for `pyLowerList`. -/
def pyLower (s : String) : String := ⟨pyLowerList s.data⟩

/-- String-level wrapper for `pyStripList`. -/
def pyStrip (s : String) : String := ⟨pyStripList s.data⟩

/-! ## `config.slugify_user`

`slugify_user` lower-cases and strips its input, replaces every maximal
run of characters outside `[a-z0-9]` by a single hyphen (the regex
`re.sub(r"[^a-z0-9]+", "-", ...)`), strips hyphens from both ends, and
falls back to `"user"` when nothing is left. -/

/-- Characters the slug keeps: ASCII lower-case letters and digits. -/
def isSlugChar (c : Char) : Bool :=
  ('a' ≤ c ∧ c ≤ 'z') || ('0' ≤ c ∧ c ≤ '9')

/-- Python `re.sub(r"[^a-z0-9]+", "-", ·)`: replace each maximal run of
non-slug characters by one hyphen.  The boolean argument records
whether the previous character belonged to a run already replaced. -/
def collapseAux : Bool → List Char → List Char
  | _, [] => []
  | inRun, c :: rest =>
    if isSlugChar c then c :: collapseAux false rest
    else if inRun then collapseAux true rest
    else '-' :: collapseAux true rest

/-- The regex substitution applied by `slugify_user`. -/
def collapseRuns (l : List Char) : List Char := collapseAux false l

/-- Model of `config.slugify_user`. -/
def slugifyUser (value : String) : String :=
  let slug := pyStripWith (· = '-')
    (collapseRuns (pyLowerList (pyStripList value.data)))
  if slug = [] then "user" else ⟨slug⟩

/-! ## Python `int(...)` and `str(...)` on spreadsheet cell values

`gspread.get_all_records` yields each cell either as a Python `int`
(numeric-looking cells) or as a `str`.  `reserve_name` applies
`int(...)` to the sequence cell (catching `ValueError`) and `str(...)`
to the domain cell. -/

/-- A spreadsheet cell value as surfaced by `get_all_records`. -/
inductive CellVal where
  | int (n : Int)
  | str (s : String)
deriving DecidableEq

/-- Decimal digits of a natural number, most significant first. -/
def natDigits (n : Nat) : List Char :=
  (Nat.toDigits 10 n)

/-- Python `str(...)` of an integer. -/
def intToStr (n : Int) : String :=
  if n < 0 then "-" ++ ⟨natDigits n.natAbs⟩ else ⟨natDigits n.natAbs⟩

/-- Python `str(...)` on a cell value. -/
def pyStrCell : CellVal → String
  | .int n => intToStr n
  | .str s => s

/-- Parse a non-empty run of ASCII digits as a natural number. -/
def parseDigits (l : List Char) : Option Nat :=
  if l = [] then none
  else if l.all (fun c => '0' ≤ c && c ≤ '9') then
    some (l.foldl (fun acc c => 10 * acc + (c.toNat - '0'.toNat)) 0)
  else none

/-- Python `int(s)` on a string: surrounding whitespace, an optional
sign, then decimal digits; anything else raises `ValueError` (`none`). -/
def pyParseInt (s : String) : Option Int :=
  match pyStripList s.data with
  | '-' :: rest => (parseDigits rest).map (fun n => -(n : Int))
  | '+' :: rest => (parseDigits rest).map (fun n => (n : Int))
  | l => (parseDigits l).map (fun n => (n : Int))

/-- Python `int(...)` on a cell value (`ValueError` is `none`). -/
def pyIntCell : CellVal → Option Int
  | .int n => some n
  | .str s => pyParseInt s

/-! ## `sheets.SheetsClient.reserve_name`

A ledger is the list of data rows of the worksheet (the header row is
implicit: data row `i` of the list lives at spreadsheet row `i + 2`).
`reserve_name` reads all records, computes the maximal sequence number
recorded for the domain — skipping rows whose sequence cell does not
parse (`ValueError` → `continue`) — appends one `Pending` row, and
returns the new sequence, hostname, and an `A…:G…` range reference to
the appended row. -/

/-- One data row of the ledger, in the seven-column schema. -/
structure Row where
  domain : CellVal
  sequence : CellVal
  hostname : String
  assignedUser : String
  status : String
  timestamp : String
  notes : String
deriving DecidableEq

/-- The domain test of the scan loop:
`str(row.get("Domain", "")).strip().lower() == domain.lower()`. -/
def matchRow (domain : String) (r : Row) : Bool :=
  pyLower (pyStrip (pyStrCell r.domain)) == pyLower domain

/-- The scan loop of `reserve_name`: fold `max_seq` over the rows,
starting from `acc`, taking rows that match the domain and whose
sequence cell parses as an integer. -/
def maxSeqFrom (domain : String) (acc : Int) (rows : List Row) : Int :=
  rows.foldl (fun m r =>
    if matchRow domain r then
      match pyIntCell r.sequence with
      | some n => max m n
      | none => m
    else m) acc

/-- The value `next_seq = max_seq + 1` computed from a snapshot of the ledger. -/
def computeNextSeq (rows : List Row) (domain : String) : Int :=
  maxSeqFrom domain 0 rows + 1

/-- The row `reserve_name` appends:
`[domain, next_seq, hostname, assigned_user, "Pending", timestamp, ""]`. -/
def mkReservationRow (domain : String) (seq : Int)
    (hostname assignedUser ts : String) : Row :=
  ⟨.str domain, .int seq, hostname, assignedUser, "Pending", ts, ""⟩

/-- The `f"{worksheet}!A{row_number}:G{row_number}"` range reference. -/
def mkRef (worksheet : String) (rowNumber : Nat) : String :=
  worksheet ++ "!A" ++ ⟨natDigits rowNumber⟩ ++ ":G" ++ ⟨natDigits rowNumber⟩

/-- The spreadsheet row number of the next appended row: one header row
plus the existing data rows, plus one. -/
def appendRowNumber (rows : List Row) : Nat := rows.length + 2

/-- Model of `SheetsClient.reserve_name`: returns `(next_seq, hostname, range)`
and, since the embedding passes the worksheet state explicitly, the
ledger with the new row appended. -/
def reserveName (rows : List Row) (domain assignedUser worksheet ts : String)
    (factory : Int → String) : Int × String × String × List Row :=
  let next := computeNextSeq rows domain
  let hostname := factory next
  let row := mkReservationRow domain next hostname assignedUser ts
  (next, hostname, mkRef worksheet (appendRowNumber rows), rows ++ [row])

/-- Iterated `reserve_name`: called `n` times in sequence against the same
worksheet; returns the final ledger and the sequence numbers in call
order. -/
def reserveIter (domain assignedUser worksheet ts : String)
    (factory : Int → String) : Nat → List Row → List Row × List Int
  | 0, rows => (rows, [])
  | n + 1, rows =>
    let (seq, _, _, rows') := reserveName rows domain assignedUser worksheet ts factory
    let (finalRows, seqs) := reserveIter domain assignedUser worksheet ts factory n rows'
    (finalRows, seq :: seqs)

/-! ### Interleaving semantics for concurrent reservations

`reserve_name` is a read-then-write pattern: it first snapshots the
worksheet (`get_all_records`) and computes `next_seq`, then appends.
To speak about two machines racing, each client is a two-step machine —
step 1 reads and computes, step 2 appends — and a schedule interleaves
the clients' steps over the shared ledger. -/

/-- The per-client progress through `reserve_name`. -/
inductive ClientPhase where
  | ready
  | computed (seq : Int) (hostname : String)
  | finished (seq : Int) (hostname : String) (ref : String)
deriving DecidableEq

/-- One step of one client: from `ready`, snapshot the ledger and
compute `next_seq` and the hostname; from `computed`, append the row
and take the range reference; `finished` is absorbing. -/
def stepClient (domain assignedUser worksheet ts : String)
    (factory : Int → String) :
    List Row → ClientPhase → List Row × ClientPhase
  | rows, .ready =>
    let next := computeNextSeq rows domain
    (rows, .computed next (factory next))
  | rows, .computed seq host =>
    (rows ++ [mkReservationRow domain seq host assignedUser ts],
     .finished seq host (mkRef worksheet (appendRowNumber rows)))
  | rows, .finished seq host ref => (rows, .finished seq host ref)

/-- Two clients, A and B, racing through `reserve_name` on one shared
ledger. -/
structure RaceState where
  rows : List Row
  a : ClientPhase
  b : ClientPhase
deriving DecidableEq

/-- Run a schedule: `true` steps client A, `false` steps client B. -/
def runSchedule (domain assignedUser worksheet ts : String)
    (factory : Int → String) : List Bool → RaceState → RaceState
  | [], st => st
  | pick :: more, st =>
    let st' :=
      if pick then
        let (rows', a') := stepClient domain assignedUser worksheet ts factory st.rows st.a
        { st with rows := rows', a := a' }
      else
        let (rows', b') := stepClient domain assignedUser worksheet ts factory st.rows st.b
        { st with rows := rows', b := b' }
    runSchedule domain assignedUser worksheet ts factory more st'

/-! ## `config.DomainConfig.build_hostname`

`build_hostname` is `self.hostname_template.format(seq=seq, user=username)`.
The model renders the `str.format` placeholder forms the program's
templates use: `{seq}`, `{seq:0Nd}` (zero-padded decimal, sign first,
as Python pads signed numbers), `{user}`, and literal text.  Other
fields do not occur in the program's templates and are rendered
verbatim. -/

/-- Left-pad with `'0'` up to `width`. -/
def padZeros (width : Nat) (l : List Char) : List Char :=
  List.replicate (width - l.length) '0' ++ l

/-- Python `format(n, "0Nd")`: zero-padded decimal, the sign ahead of
the padding. -/
def formatZeroPadded (width : Nat) (n : Int) : List Char :=
  if n < 0 then '-' :: padZeros (width - 1) (natDigits n.natAbs)
  else padZeros width (natDigits n.natAbs)

/-- Render one format spec applied to an integer field: empty and `d`
give plain decimal, `0Nd` zero-pads to width `N`. -/
def formatIntSpec (spec : List Char) (n : Int) : List Char :=
  match spec with
  | [] => (intToStr n).data
  | ['d'] => (intToStr n).data
  | '0' :: rest =>
    match rest.getLast?, parseDigits rest.dropLast with
    | some 'd', some width => formatZeroPadded width n
    | _, _ => (intToStr n).data
  | _ => (intToStr n).data

/-- Render one `{...}` placeholder body (`name` or `name:spec`). -/
def renderField (seq : Int) (user : String) (field : List Char) : List Char :=
  let name := field.takeWhile (· ≠ ':')
  let spec := ((field.dropWhile (· ≠ ':')).drop 1)
  if name = "seq".data then formatIntSpec spec seq
  else if name = "user".data then user.data
  else '{' :: field ++ ['}']

/-- Scan a template, substituting each `{...}` placeholder.  The
accumulator is `some acc` (reversed) while inside a placeholder; an
unterminated placeholder is emitted verbatim. -/
def renderAux (seq : Int) (user : String) : Option (List Char) → List Char → List Char
  | none, [] => []
  | none, c :: rest =>
    if c = '{' then renderAux seq user (some []) rest
    else c :: renderAux seq user none rest
  | some acc, [] => '{' :: acc.reverse
  | some acc, c :: rest =>
    if c = '}' then renderField seq user acc.reverse ++ renderAux seq user none rest
    else renderAux seq user (some (c :: acc)) rest

/-- Python `str.format` over a hostname template. -/
def renderTemplate (seq : Int) (user : String) (l : List Char) : List Char :=
  renderAux seq user none l

/-- One domain entry of the configuration file. -/
structure DomainConfig where
  name : String
  sheetId : String
  worksheet : String
  hostnameTemplate : String
  ouPath : Option String
deriving DecidableEq

/-- Model of `DomainConfig.build_hostname`. -/
def DomainConfig.buildHostname (c : DomainConfig) (seq : Int) (username : String) :
    String :=
  ⟨renderTemplate seq username c.hostnameTemplate.data⟩

/-! ## `cli._post_login`

Phase 2, after loading the persisted state, performs a fixed sequence
of effects.  The embedding records that sequence as a list of abstract
system actions, parameterised by the fields of the loaded state and
configuration that feed it.  The account-removal step is guarded by
`state.initial_user.lower() != state.local_admin_user.lower()`. -/

/-- The external effects `_post_login` can invoke, in the order the
code invokes them. -/
inductive SysAction where
  | clearAutologon
  | removeLocalUser (name : String)
  | joinDomain (domain username : String) (ouPath : Option String) (restart : Bool)
  | updateStatus (sheetId worksheet rowRange status notes : String)
  | clearStateFile (path : String)
  | restartComputer (delaySeconds : Nat)
deriving DecidableEq

/-- The effect trace of `_post_login` after the state is loaded:
clear auto-logon; remove the build user unless it names the permanent
administrator up to `lower()`; join the domain without restart; update
the ledger row to `Joined`; clear the state file; restart unless
`--no-restart`. -/
def postLoginActions (initialUser localAdminUser domain domainUsername : String)
    (ouPath : Option String)
    (sheetId worksheet sheetRange statePath : String)
    (noRestart : Bool) : List SysAction :=
  [SysAction.clearAutologon]
  ++ (if pyLower initialUser ≠ pyLower localAdminUser
      then [SysAction.removeLocalUser initialUser] else [])
  ++ [SysAction.joinDomain domain domainUsername ouPath false,
      SysAction.updateStatus sheetId worksheet sheetRange "Joined"
        "Provisioned via computer-setup",
      SysAction.clearStateFile statePath]
  ++ (if noRestart then [] else [SysAction.restartComputer 10])

/-! ## `state.py`: the state store

The persisted document is JSON; `json.load` yields Python dicts,
lists, strings, ints, bools, `None`.  The `SetupState` dataclass
performs no runtime type enforcement, so its fields hold whatever JSON
values the document carried; `to_json` is `dataclasses.asdict` and
`from_json` reads the fields back by key.  The file system becomes an
explicit map from paths to stored documents. -/

/-- A JSON value (floats do not occur in the state documents the
program writes). -/
inductive Json where
  | null
  | bool (b : Bool)
  | int (n : Int)
  | str (s : String)
  | arr (items : List Json)
  | obj (fields : List (String × Json))

/-- Key lookup in a JSON object's field list; on duplicate keys the
last occurrence wins, as when Python builds the dict. -/
def jLookup (fields : List (String × Json)) (key : String) : Option Json :=
  match fields with
  | [] => none
  | (k, v) :: rest =>
    match jLookup rest key with
    | some r => some r
    | none => if k = key then some v else none

/-- Lookup on an arbitrary JSON value: only objects have keys. -/
def jGet (j : Json) (key : String) : Option Json :=
  match j with
  | .obj fields => jLookup fields key
  | _ => none

/-- Python truthiness of a JSON value (used by `data.get("secrets") or {}`). -/
def pyTruthy : Json → Bool
  | .null => false
  | .bool b => b
  | .int n => n != 0
  | .str s => s != ""
  | .arr items => !items.isEmpty
  | .obj fields => !fields.isEmpty

/-- The `Secrets` dataclass.  Fields hold the JSON values the document
carried (the dataclass does not enforce `str` at runtime). -/
structure Secrets where
  local_admin_password : Json
  domain_username : Json
  domain_password : Json

/-- The `SetupState` dataclass. -/
structure SetupState where
  version : Json
  domain : Json
  assigned_user : Json
  computer_name : Json
  initial_user : Json
  local_admin_user : Json
  sheet_id : Json
  worksheet : Json
  sheet_range : Json
  secrets : Secrets

/-- Model of `SetupState.create`: version pinned to 1, all other fields the
given strings. -/
def SetupState.create (domain assigned_user computer_name initial_user
    local_admin_user sheet_id worksheet sheet_range : String)
    (lap du dp : String) : SetupState :=
  { version := .int 1
    domain := .str domain
    assigned_user := .str assigned_user
    computer_name := .str computer_name
    initial_user := .str initial_user
    local_admin_user := .str local_admin_user
    sheet_id := .str sheet_id
    worksheet := .str worksheet
    sheet_range := .str sheet_range
    secrets := ⟨.str lap, .str du, .str dp⟩ }

/-- Model of `SetupState.to_json` (`dataclasses.asdict`): the field-named
document, the nested `Secrets` as a nested object. -/
def SetupState.toJson (s : SetupState) : Json :=
  .obj [("version", s.version),
        ("domain", s.domain),
        ("assigned_user", s.assigned_user),
        ("computer_name", s.computer_name),
        ("initial_user", s.initial_user),
        ("local_admin_user", s.local_admin_user),
        ("sheet_id", s.sheet_id),
        ("worksheet", s.worksheet),
        ("sheet_range", s.sheet_range),
        ("secrets", .obj [("local_admin_password", s.secrets.local_admin_password),
                          ("domain_username", s.secrets.domain_username),
                          ("domain_password", s.secrets.domain_password)])]

/-- The errors `load_state` / `from_json` surface: a missing file
(`FileNotFoundError`), a missing key (`KeyError`), or indexing a
non-object (`TypeError`/`AttributeError`). -/
inductive StateErr where
  | fileNotFound
  | keyError (key : String)
  | typeError
deriving DecidableEq

/-- Python `data[key]`: dict subscription, `KeyError` when absent,
`TypeError` when `data` is not a dict. -/
def jIndex (j : Json) (key : String) : Except StateErr Json :=
  match j with
  | .obj fields =>
    match jLookup fields key with
    | some v => .ok v
    | none => .error (.keyError key)
  | _ => .error .typeError

/-- Model of `SetupState.from_json`: `version` via `data.get("version", 1)`,
`secrets` via `data.get("secrets") or {}`, every other field by
subscription. -/
def SetupState.fromJson (data : Json) : Except StateErr SetupState :=
  match data with
  | .obj fields => do
    let secretsDoc :=
      match jLookup fields "secrets" with
      | some v => if pyTruthy v then v else .obj []
      | none => .obj []
    let domain ← jIndex data "domain"
    let assigned_user ← jIndex data "assigned_user"
    let computer_name ← jIndex data "computer_name"
    let initial_user ← jIndex data "initial_user"
    let local_admin_user ← jIndex data "local_admin_user"
    let sheet_id ← jIndex data "sheet_id"
    let worksheet ← jIndex data "worksheet"
    let sheet_range ← jIndex data "sheet_range"
    let lap ← jIndex secretsDoc "local_admin_password"
    let du ← jIndex secretsDoc "domain_username"
    let dp ← jIndex secretsDoc "domain_password"
    pure { version := (jLookup fields "version").getD (.int 1)
           domain := domain
           assigned_user := assigned_user
           computer_name := computer_name
           initial_user := initial_user
           local_admin_user := local_admin_user
           sheet_id := sheet_id
           worksheet := worksheet
           sheet_range := sheet_range
           secrets := ⟨lap, du, dp⟩ }
  | _ => .error .typeError

/-- The file system: a map from paths to the JSON documents stored
there (`json.dump`/`json.load` round-trip the document faithfully). -/
abbrev FileSys := String → Option Json

/-- Model of `state.save_state`: write the document at the path. -/
def saveState (s : SetupState) (path : String) (fs : FileSys) : FileSys :=
  fun p => if p = path then some s.toJson else fs p

/-- Model of `state.load_state`: open (missing file raises), parse, `from_json`. -/
def loadState (path : String) (fs : FileSys) : Except StateErr SetupState :=
  match fs path with
  | none => .error .fileNotFound
  | some doc => SetupState.fromJson doc

/-- Model of `state.clear_state`: unlink if present (no-op when absent). -/
def clearState (path : String) (fs : FileSys) : FileSys :=
  fun p => if p = path then none else fs p

/-! ## `security.py`: the secret protector

`protect_string` encodes the secret as UTF-16-LE bytes, encrypts them
through the DPAPI machine-scope facility (`CryptProtectData`), and
Base64-encodes the ciphertext; `unprotect_string` Base64-decodes,
decrypts (`CryptUnprotectData`), and decodes UTF-16-LE.  DPAPI is an
external platform facility (out of scope per the spec, specified at
its interface boundary), so the embedding takes the encrypt/decrypt
pair as parameters constrained by the platform contract: on byte
strings, decrypt inverts encrypt and ciphertexts are byte strings.
Bytes are `Nat` values; a list is a byte string when every element is
below 256. -/

/-- Every element of the list is a byte. -/
def IsBytes (l : List Nat) : Prop := ∀ x ∈ l, x < 256

/-- The Base64 alphabet: value `n < 64` to its character. -/
def sextetChar (n : Nat) : Char :=
  if n < 26 then Char.ofNat ('A'.toNat + n)
  else if n < 52 then Char.ofNat ('a'.toNat + (n - 26))
  else if n < 62 then Char.ofNat ('0'.toNat + (n - 52))
  else if n = 62 then '+'
  else '/'

/-- Inverse of the Base64 alphabet; `none` for non-alphabet characters. -/
def charSextet (c : Char) : Option Nat :=
  if 'A' ≤ c ∧ c ≤ 'Z' then some (c.toNat - 'A'.toNat)
  else if 'a' ≤ c ∧ c ≤ 'z' then some (c.toNat - 'a'.toNat + 26)
  else if '0' ≤ c ∧ c ≤ '9' then some (c.toNat - '0'.toNat + 52)
  else if c = '+' then some 62
  else if c = '/' then some 63
  else none

/-- Python `base64.b64encode`: three bytes to four characters, the final
group padded with `=`. -/
def b64Encode : List Nat → List Char
  | a :: b :: c :: rest =>
    sextetChar (a / 4) :: sextetChar (a % 4 * 16 + b / 16) ::
      sextetChar (b % 16 * 4 + c / 64) :: sextetChar (c % 64) :: b64Encode rest
  | [a, b] =>
    [sextetChar (a / 4), sextetChar (a % 4 * 16 + b / 16), sextetChar (b % 16 * 4), '=']
  | [a] => [sextetChar (a / 4), sextetChar (a % 4 * 16), '=', '=']
  | [] => []

/-- Python `base64.b64decode` on well-padded input: four characters to three
bytes, a padded final group to two or one. -/
def b64Decode : List Char → Option (List Nat)
  | [] => some []
  | c1 :: c2 :: c3 :: c4 :: rest =>
    match charSextet c1, charSextet c2 with
    | some s1, some s2 =>
      if c3 = '=' then
        if c4 = '=' && rest.isEmpty then some [s1 * 4 + s2 / 16] else none
      else
        match charSextet c3 with
        | some s3 =>
          if c4 = '=' then
            if rest.isEmpty then some [s1 * 4 + s2 / 16, s2 % 16 * 16 + s3 / 4]
            else none
          else
            match charSextet c4, b64Decode rest with
            | some s4, some tail =>
              some ((s1 * 4 + s2 / 16) :: (s2 % 16 * 16 + s3 / 4) ::
                (s3 % 4 * 64 + s4) :: tail)
            | _, _ => none
        | none => none
    | _, _ => none
  | _ => none

/-- UTF-16-LE encoding of one Unicode scalar value: plane 0 as two
bytes little-endian, the rest as a surrogate pair. -/
def utf16EncodeScalar (n : Nat) : List Nat :=
  if n < 0x10000 then [n % 256, n / 256]
  else
    let v := n - 0x10000
    let hi := 0xD800 + v / 0x400
    let lo := 0xDC00 + v % 0x400
    [hi % 256, hi / 256, lo % 256, lo / 256]

/-- Python `str.encode("utf-16-le")`. -/
def utf16Encode : List Char → List Nat
  | [] => []
  | c :: rest => utf16EncodeScalar c.toNat ++ utf16Encode rest

mutual

/-- Python `bytes.decode("utf-16-le")`, at the level of scalar values: pair
bytes little-endian, combine surrogate pairs, reject lone or
mismatched surrogates and odd tails. -/
def utf16DecodeScalars : List Nat → Option (List Nat)
  | [] => some []
  | b0 :: b1 :: rest =>
    let w := b0 + 256 * b1
    if 0xD800 ≤ w ∧ w < 0xDC00 then utf16DecodeLow w rest
    else if 0xDC00 ≤ w ∧ w < 0xE000 then none
    else (utf16DecodeScalars rest).map (w :: ·)
  | _ => none
termination_by l => l.length

/-- Consume the low half of a surrogate pair whose high half decoded
to `w`, then continue. -/
def utf16DecodeLow (w : Nat) : List Nat → Option (List Nat)
  | b2 :: b3 :: rest2 =>
    let w2 := b2 + 256 * b3
    if 0xDC00 ≤ w2 ∧ w2 < 0xE000 then
      (utf16DecodeScalars rest2).map
        (fun t => (0x10000 + (w - 0xD800) * 0x400 + (w2 - 0xDC00)) :: t)
    else none
  | _ => none
termination_by l => l.length + 1

end

/-- A scalar value back to a `Char`; `none` outside the valid range. -/
def scalarToChar (n : Nat) : Option Char :=
  if n.isValidChar then some (Char.ofNat n) else none

/-- Python `bytes.decode("utf-16-le")` to a string. -/
def utf16Decode (l : List Nat) : Option (List Char) := do
  let scalars ← utf16DecodeScalars l
  scalars.mapM scalarToChar

/-- Model of `security.protect_string`, with the DPAPI machine-scope encryption
facility abstracted as `encrypt`. -/
def protectString (encrypt : List Nat → List Nat) (secret : String) : String :=
  ⟨b64Encode (encrypt (utf16Encode secret.data))⟩

/-- Model of `security.unprotect_string`, with the DPAPI facility abstracted as
`decrypt`; `none` models the raised error on malformed input. -/
def unprotectString (decrypt : List Nat → List Nat) (token : String) :
    Option String := do
  let raw ← b64Decode token.data
  let decrypted := decrypt raw
  let chars ← utf16Decode decrypted
  pure ⟨chars⟩

/-- The platform contract of the DPAPI facility (spec §4.1): on byte
strings, ciphertexts are byte strings and decryption inverts
encryption on the same machine. -/
def DpapiContract (encrypt decrypt : List Nat → List Nat) : Prop :=
  ∀ b, IsBytes b → IsBytes (encrypt b) ∧ decrypt (encrypt b) = b

/-! ## Spec-side definitions and proof scaffolding

Definitions below are not translations of source functions; they state
spec-side notions the claims compare the source against, and concrete
inputs the theorems use. -/

/-- ASCII alphanumeric characters. -/
def isAlnumASCII (c : Char) : Bool :=
  ('a' ≤ c ∧ c ≤ 'z') || ('A' ≤ c ∧ c ≤ 'Z') || ('0' ≤ c ∧ c ≤ '9')

/-- Spec-side: the scan fold keeping only rows whose sequence cell is
a valid *nonnegative* integer (the claims' notion of a valid row),
from a given accumulator. -/
def specMaxValidFrom (domain : String) (acc : Int) (rows : List Row) : Int :=
  rows.foldl (fun m r =>
    if matchRow domain r then
      match pyIntCell r.sequence with
      | some n => if 0 ≤ n then max m n else m
      | none => m
    else m) acc

/-- Spec-side: the maximum sequence among valid rows of the domain
(`0` when there are none). -/
def specMaxValidSeq (domain : String) (rows : List Row) : Int :=
  specMaxValidFrom domain 0 rows

/-- Does the JSON value have this key (objects only)? -/
def jHasKey (j : Json) (k : String) : Bool := (jGet j k).isSome

/-- Spec-side (amended claim C5): the documents `from_json` accepts —
a JSON object carrying the eight non-version fields plus a truthy
`secrets` object carrying the three secret fields; the version tag is
optional and the row reference is not inspected. -/
def acceptsDoc (j : Json) : Bool :=
  (match j with | .obj _ => true | _ => false) &&
  jHasKey j "domain" && jHasKey j "assigned_user" && jHasKey j "computer_name" &&
  jHasKey j "initial_user" && jHasKey j "local_admin_user" && jHasKey j "sheet_id" &&
  jHasKey j "worksheet" && jHasKey j "sheet_range" &&
  (match jGet j "secrets" with
   | some sec => pyTruthy sec && jHasKey sec "local_admin_password" &&
       jHasKey sec "domain_username" && jHasKey sec "domain_password"
   | none => false)

/-- A state document with every field except the `version` tag, and a
row reference that does not parse to any row number. -/
def noVersionDoc : Json :=
  .obj [("domain", .str "corp.example"),
        ("assigned_user", .str "jane-doe"),
        ("computer_name", .str "001-jane-doe"),
        ("initial_user", .str "builder"),
        ("local_admin_user", .str "WorkstationAdmin"),
        ("sheet_id", .str "X"),
        ("worksheet", .str "Devices"),
        ("sheet_range", .str "not a row reference"),
        ("secrets", .obj [("local_admin_password", .str "p1"),
                          ("domain_username", .str "CORP\\join"),
                          ("domain_password", .str "p2")])]

/-- The ledger after `k` successful sequential reservations for one
domain: rows carrying sequences `1..k`. -/
def mkLedger (domain user ts : String) (f : Int → String) (k : Nat) : List Row :=
  (List.range k).map (fun i : Nat =>
    mkReservationRow domain ((i : Int) + 1) (f ((i : Int) + 1)) user ts)

/-! ## Theorems -/

/-- C3: For every `SetupState` value (with nested `Secrets`), saving it
with `save_state` to a path and loading that path with `load_state`
returns the state saved; equivalently `SetupState.from_json` composed
with `SetupState.to_json` is the identity on `SetupState` values. -/
theorem save_load_roundtrip (s : SetupState) (path : String) (fs : FileSys) :
    loadState path (saveState s path fs) = .ok s ∧
    SetupState.fromJson s.toJson = .ok s := by
  rcases s with ⟨v, d, au, cn, iu, la, si, w, sr, ⟨lap, du, dp⟩⟩
  refine ⟨?_, ?_⟩
  · simp only [loadState, saveState, if_pos]
    rfl
  · rfl

/-- C7: `clear_state` is idempotent (clearing an absent location does
not raise, and clearing twice equals clearing once), and `load_state`
after `clear_state` on the same path fails rather than returning a
state. -/
theorem clear_idempotent_load_fails (path : String) (fs : FileSys) :
    clearState path (clearState path fs) = clearState path fs ∧
    loadState path (clearState path fs) = .error .fileNotFound := by
  constructor
  · funext p
    by_cases h : p = path <;> simp [clearState, h]
  · simp [loadState, clearState]

/-- C4: There is an interleaving of two `reserve_name` executions
against the same domain and ledger — both read the empty ledger before
either appends — in which both calls return sequence 1 and the ledger
ends with two `Pending` rows carrying the duplicate sequence: the
read-max-then-append pattern is not atomic. -/
theorem reserve_race_duplicates :
    runSchedule "corp.example" "jane-doe" "Devices" "TS" intToStr
      [true, false, true, false] ⟨[], .ready, .ready⟩ =
      ⟨[mkReservationRow "corp.example" 1 "1" "jane-doe" "TS",
        mkReservationRow "corp.example" 1 "1" "jane-doe" "TS"],
       .finished 1 "1" "Devices!A2:G2", .finished 1 "1" "Devices!A3:G3"⟩ ∧
    (runSchedule "corp.example" "jane-doe" "Devices" "TS" intToStr
      [true, false, true, false] ⟨[], .ready, .ready⟩).rows.countP
        (fun r => r.sequence == CellVal.int 1) = 2 := by
  constructor <;> decide

/-- C8: With hostname template `"{seq:03d}-{user}"` and assigned user
`"Jane Doe"` (slug `"jane-doe"`), `reserve_name` on an empty ledger
returns sequence 1, hostname `"001-jane-doe"`, and a reference to the
appended row (spreadsheet row 2, the first data row). -/
theorem full_roundtrip_scenario :
    slugifyUser "Jane Doe" = "jane-doe" ∧
    reserveName [] "corp.example" (slugifyUser "Jane Doe") "Devices" "TS"
      (fun n => (DomainConfig.mk "corp.example" "X" "Devices" "\x7bseq:03d\x7d-\x7buser\x7d"
          none).buildHostname n (slugifyUser "Jane Doe")) =
      (1, "001-jane-doe", "Devices!A2:G2",
       [mkReservationRow "corp.example" 1 "001-jane-doe" "jane-doe" "TS"]) := by
  constructor <;> decide

/-- C9: In phase 2, a removal action for the temporary account appears
in the effect trace exactly when its name differs from the permanent
local administrator's name after `lower()`; when the two names agree
up to case, no account-removal action occurs at all. -/
theorem post_login_removal_iff (initialUser localAdminUser domain domainUsername : String)
    (ouPath : Option String) (sheetId worksheet sheetRange statePath : String)
    (noRestart : Bool) (u : String) :
    (SysAction.removeLocalUser u ∈
      postLoginActions initialUser localAdminUser domain domainUsername ouPath
        sheetId worksheet sheetRange statePath noRestart) ↔
    (u = initialUser ∧ pyLower initialUser ≠ pyLower localAdminUser) := by
  by_cases h : pyLower initialUser = pyLower localAdminUser <;>
    cases noRestart <;>
    simp [postLoginActions, h]

/-- The scan fold agrees with the spec-side fold that skips negative
sequence values: from a nonnegative accumulator, a negative parsed
sequence can never raise the running maximum. -/
theorem maxSeq_eq_specMaxValid (domain : String) (rows : List Row) :
    ∀ acc : Int, 0 ≤ acc →
      maxSeqFrom domain acc rows = specMaxValidFrom domain acc rows := by
  induction rows with
  | nil => intro acc _; rfl
  | cons r rest ih =>
    intro acc hacc
    simp only [maxSeqFrom, specMaxValidFrom, List.foldl_cons] at ih ⊢
    by_cases hm : matchRow domain r
    · cases hp : pyIntCell r.sequence with
      | none => simp only [hm, hp, if_true]; exact ih acc hacc
      | some n =>
        by_cases hn : 0 ≤ n
        · simp only [hm, hp, if_true, if_pos hn]
          exact ih (max acc n) (le_trans hacc (le_max_left _ _))
        · have hmax : max acc n = acc := max_eq_left (by omega)
          simp only [hm, hp, if_true, if_neg hn, hmax]
          exact ih acc hacc
    · simp only [hm, if_false]
      exact ih acc hacc

/-- C6: For every ledger — in particular one containing rows whose
sequence cell is non-numeric text or empty — `reserve_name` skips the
rows without a valid nonnegative integer sequence when computing the
maximum and does not fail: it returns the maximum over valid rows
plus one. -/
theorem reserve_skips_malformed (rows : List Row) (domain user ws ts : String)
    (f : Int → String) :
    (reserveName rows domain user ws ts f).1 = specMaxValidSeq domain rows + 1 := by
  simp only [reserveName, computeNextSeq, specMaxValidSeq]
  rw [maxSeq_eq_specMaxValid domain rows 0 le_rfl]

/-- A row `reserve_name` itself appended matches its own domain in the
scan, provided the domain carries no surrounding whitespace (the scan
strips the stored cell but not the queried domain). -/
theorem matchRow_mkReservationRow (domain : String) (hd : pyStrip domain = domain)
    (seq : Int) (host user ts : String) :
    matchRow domain (mkReservationRow domain seq host user ts) = true := by
  simp [matchRow, mkReservationRow, pyStrCell, hd]

/-- Scanning the ledger of `k` sequential reservations yields `k` as
the maximum (from a nonnegative accumulator, the running maximum over
`1..k`). -/
theorem maxSeqFrom_mkLedger (domain user ts : String) (f : Int → String)
    (hd : pyStrip domain = domain) (k : Nat) :
    ∀ acc : Int, 0 ≤ acc →
      maxSeqFrom domain acc (mkLedger domain user ts f k) = max acc k := by
  induction k with
  | zero =>
    intro acc hacc
    simp only [mkLedger, List.range_zero, List.map_nil, maxSeqFrom, List.foldl_nil,
      Nat.cast_zero]
    exact (max_eq_left hacc).symm
  | succ k ih =>
    intro acc hacc
    have hsplit : mkLedger domain user ts f (k + 1) =
        mkLedger domain user ts f k ++
          [mkReservationRow domain ((k : Int) + 1) (f ((k : Int) + 1)) user ts] := by
      simp [mkLedger, List.range_succ]
    rw [hsplit]
    simp only [maxSeqFrom, List.foldl_append, List.foldl_cons, List.foldl_nil]
    rw [show List.foldl _ acc (mkLedger domain user ts f k) =
        maxSeqFrom domain acc (mkLedger domain user ts f k) from rfl]
    rw [ih acc hacc]
    rw [matchRow_mkReservationRow domain hd]
    simp only [if_true, mkReservationRow, pyIntCell]
    rw [max_assoc, max_eq_right (by omega : (k : Int) ≤ (k : Int) + 1)]
    push_cast
    rfl

/-- One `reserve_name` call on the ledger of `k` sequential
reservations: sequence `k + 1`, ledger extended to `k + 1` rows. -/
theorem reserveName_mkLedger (domain user ws ts : String) (f : Int → String)
    (hd : pyStrip domain = domain) (k : Nat) :
    reserveName (mkLedger domain user ts f k) domain user ws ts f =
      ((k : Int) + 1, f ((k : Int) + 1), mkRef ws (k + 2),
       mkLedger domain user ts f (k + 1)) := by
  have hlen : (mkLedger domain user ts f k).length = k := by
    simp only [mkLedger, List.length_map, List.length_range]
  have hsplit : mkLedger domain user ts f (k + 1) =
      mkLedger domain user ts f k ++
        [mkReservationRow domain ((k : Int) + 1) (f ((k : Int) + 1)) user ts] := by
    simp [mkLedger, List.range_succ]
  have hmax : maxSeqFrom domain 0 (mkLedger domain user ts f k) = (k : Int) := by
    rw [maxSeqFrom_mkLedger domain user ts f hd k 0 le_rfl]
    exact max_eq_right (by omega)
  simp only [reserveName, computeNextSeq, hmax, appendRowNumber, hlen, hsplit]

/-- Running `n` further sequential `reserve_name` calls on the ledger of `k`
reservations: sequences `k+1 .. k+n`, ledger extended to `k + n`
rows. -/
theorem reserveIter_mkLedger (domain user ws ts : String) (f : Int → String)
    (hd : pyStrip domain = domain) :
    ∀ (n k : Nat),
      reserveIter domain user ws ts f n (mkLedger domain user ts f k) =
        (mkLedger domain user ts f (k + n),
         (List.range n).map (fun i : Nat => (k : Int) + i + 1)) := by
  intro n
  induction n with
  | zero => intro k; simp [reserveIter]
  | succ n ih =>
    intro k
    simp only [reserveIter, reserveName_mkLedger domain user ws ts f hd k, ih (k + 1)]
    rw [Prod.mk.injEq]
    refine ⟨by congr 1; omega, ?_⟩
    rw [List.range_succ_eq_map, List.map_cons, List.map_map, List.cons.injEq]
    refine ⟨by push_cast; ring, ?_⟩
    apply List.map_congr_left
    intro i _
    simp only [Function.comp_apply]
    push_cast
    ring

/-- C2 (counterexample): for the domain `" x"` — identical in both
calls — two sequential `reserve_name` calls on an initially empty
ledger both return sequence 1: the scan strips whitespace from the
stored domain cell but not from the queried domain, so the second call
never sees the first call's row.  The claim's `1, 2, ..., N` fails at
`N = 2`. -/
theorem reserve_sequential_counterexample :
    (reserveIter " x" "jane" "Devices" "TS" (fun _ => "h") 2 []).2 = [1, 1] ∧
    (reserveIter " x" "jane" "Devices" "TS" (fun _ => "h") 2 []).2 ≠
      (List.range 2).map (fun i : Nat => (i : Int) + 1) := by
  constructor <;> decide

/-- C2 (amended): for every domain string that carries no leading or
trailing whitespace (`strip` leaves it unchanged), `reserve_name`
called `N` times sequentially against an initially empty ledger
returns exactly the sequences `1, 2, ..., N`, and each call appends
one row with status `Pending` for that domain. -/
theorem reserve_sequential_monotone (domain user ws ts : String) (f : Int → String)
    (hd : pyStrip domain = domain) (N : Nat) :
    (reserveIter domain user ws ts f N []).2 =
      (List.range N).map (fun i : Nat => (i : Int) + 1) ∧
    (reserveIter domain user ws ts f N []).1.length = N ∧
    ∀ r ∈ (reserveIter domain user ws ts f N []).1,
      r.status = "Pending" ∧ r.domain = .str domain := by
  have h0 : ([] : List Row) = mkLedger domain user ts f 0 := by
    simp [mkLedger]
  rw [h0, reserveIter_mkLedger domain user ws ts f hd N 0]
  refine ⟨?_, ?_, ?_⟩
  · apply List.map_congr_left
    intro i _
    push_cast
    ring
  · simp only [mkLedger, List.length_map, List.length_range, Nat.zero_add]
  · intro r hr
    simp only [mkLedger, List.mem_map] at hr
    obtain ⟨i, _, rfl⟩ := hr
    exact ⟨rfl, rfl⟩

/-- Witness for C2 (amended): a concrete whitespace-free domain, three
calls, sequences `[1, 2, 3]`. -/
theorem reserve_sequential_monotone_witness :
    pyStrip "corp.example" = "corp.example" ∧
    ((reserveIter "corp.example" "jane" "Devices" "TS" (fun _ => "h") 3 []).2 =
      (List.range 3).map (fun i : Nat => (i : Int) + 1) ∧
     (reserveIter "corp.example" "jane" "Devices" "TS" (fun _ => "h") 3 []).1.length = 3 ∧
     ∀ r ∈ (reserveIter "corp.example" "jane" "Devices" "TS" (fun _ => "h") 3 []).1,
       r.status = "Pending" ∧ r.domain = .str "corp.example") :=
  ⟨by decide,
   reserve_sequential_monotone "corp.example" "jane" "Devices" "TS" (fun _ => "h")
     (by decide) 3⟩

/-- Evaluating `isOk` through one `Except` bind. -/
theorem isOk_bind (e : Except StateErr Json)
    (f : Json → Except StateErr SetupState) :
    (e >>= f).isOk = match e with | .ok v => (f v).isOk | .error _ => false := by
  cases e <;> rfl

/-- C5 (amended): `from_json` accepts a document exactly when it is a
JSON object carrying the eight non-version fields and a truthy
`secrets` object carrying the three secret fields; the `version` tag
is **not** required (it defaults to 1) and the stored row reference is
not parsed or validated at load time.  `load_state` additionally fails
on a missing file. -/
theorem load_validation_characterised :
    (∀ doc : Json, (SetupState.fromJson doc).isOk = acceptsDoc doc) ∧
    (∀ (path : String) (fs : FileSys), fs path = none →
      loadState path fs = .error .fileNotFound) := by
  constructor
  · intro doc
    cases doc with
    | null => rfl
    | bool b => rfl
    | int n => rfl
    | str s => rfl
    | arr items => rfl
    | obj fields =>
      simp only [SetupState.fromJson, acceptsDoc, jHasKey, jGet]
      cases h1 : jLookup fields "domain" with
      | none => simp [jIndex, h1, isOk_bind, Except.isOk]
      | some v1 =>
      cases h2 : jLookup fields "assigned_user" with
      | none => simp [jIndex, h1, h2, isOk_bind, Except.isOk]
      | some v2 =>
      cases h3 : jLookup fields "computer_name" with
      | none => simp [jIndex, h1, h2, h3, isOk_bind, Except.isOk]
      | some v3 =>
      cases h4 : jLookup fields "initial_user" with
      | none => simp [jIndex, h1, h2, h3, h4, isOk_bind, Except.isOk]
      | some v4 =>
      cases h5 : jLookup fields "local_admin_user" with
      | none => simp [jIndex, h1, h2, h3, h4, h5, isOk_bind, Except.isOk]
      | some v5 =>
      cases h6 : jLookup fields "sheet_id" with
      | none => simp [jIndex, h1, h2, h3, h4, h5, h6, isOk_bind, Except.isOk]
      | some v6 =>
      cases h7 : jLookup fields "worksheet" with
      | none => simp [jIndex, h1, h2, h3, h4, h5, h6, h7, isOk_bind, Except.isOk]
      | some v7 =>
      cases h8 : jLookup fields "sheet_range" with
      | none => simp [jIndex, h1, h2, h3, h4, h5, h6, h7, h8, isOk_bind, Except.isOk]
      | some v8 =>
      cases hs : jLookup fields "secrets" with
      | none =>
        simp [jIndex, h1, h2, h3, h4, h5, h6, h7, h8, hs, isOk_bind, Except.isOk,
          jLookup]
      | some vs =>
        by_cases ht : pyTruthy vs
        · cases vs with
          | obj sf =>
            simp only [h1, h2, h3, h4, h5, h6, h7, h8, hs, ht, if_pos, jIndex,
              isOk_bind, Except.isOk]
            cases hk1 : jLookup sf "local_admin_password" with
            | none => simp [jIndex, hk1, isOk_bind, Except.isOk, ht]
            | some w1 =>
            cases hk2 : jLookup sf "domain_username" with
            | none => simp [jIndex, hk1, hk2, isOk_bind, Except.isOk, ht]
            | some w2 =>
            cases hk3 : jLookup sf "domain_password" with
            | none => simp [jIndex, hk1, hk2, hk3, isOk_bind, Except.isOk, ht]
            | some w3 =>
              simp [jIndex, hk1, hk2, hk3, isOk_bind, Except.isOk, ht, pure,
                Except.pure, Except.toBool]
          | null => simp [pyTruthy] at ht
          | bool b =>
            simp [h1, h2, h3, h4, h5, h6, h7, h8, hs, ht, jIndex, isOk_bind,
              Except.isOk]
          | int n =>
            simp [h1, h2, h3, h4, h5, h6, h7, h8, hs, ht, jIndex, isOk_bind,
              Except.isOk]
          | str s =>
            simp [h1, h2, h3, h4, h5, h6, h7, h8, hs, ht, jIndex, isOk_bind,
              Except.isOk]
          | arr items =>
            simp [h1, h2, h3, h4, h5, h6, h7, h8, hs, ht, jIndex, isOk_bind,
              Except.isOk]
        · simp [h1, h2, h3, h4, h5, h6, h7, h8, hs, ht, jIndex, isOk_bind,
            Except.isOk, jLookup]
  · intro path fs h
    simp [loadState, h]

/-- C5 (counterexample): `noVersionDoc` has no `version` tag and a row
reference that parses to no row number at all, yet `from_json` (and
hence `load_state` on a file holding it) accepts it — refuting the
claim that a document is valid only if all fields including the
version tag are present and the stored row reference parses to a
positive row number. -/
theorem load_validation_counterexample :
    jGet noVersionDoc "version" = none ∧
    jGet noVersionDoc "sheet_range" = some (.str "not a row reference") ∧
    (SetupState.fromJson noVersionDoc).isOk = true ∧
    (loadState "state.json" (fun _ => some noVersionDoc)).isOk = true := by
  refine ⟨rfl, rfl, rfl, rfl⟩

/-- Witness for C5 (amended), at a concrete document and a concrete
empty file system. -/
theorem load_validation_characterised_witness :
    (SetupState.fromJson Json.null).isOk = acceptsDoc Json.null ∧
    loadState "state.json" (fun _ => none) = .error .fileNotFound :=
  ⟨load_validation_characterised.1 Json.null,
   load_validation_characterised.2 "state.json" (fun _ => none) rfl⟩

/-- The Base64 alphabet decodes its own encoding. -/
theorem charSextet_sextetChar : ∀ n < 64, charSextet (sextetChar n) = some n := by
  decide

/-- No alphabet character is the padding character. -/
theorem sextetChar_ne_pad : ∀ n < 64, sextetChar n ≠ '=' := by
  decide

/-- Base64 decoding inverts Base64 encoding on byte strings. -/
theorem b64Decode_b64Encode : ∀ l : List Nat, IsBytes l →
    b64Decode (b64Encode l) = some l
  | [], _ => rfl
  | [a], h => by
    have ha : a < 256 := h a (by simp)
    have h1 := charSextet_sextetChar (a / 4) (by omega)
    have h2 := charSextet_sextetChar (a % 4 * 16) (by omega)
    simp [b64Encode, b64Decode, h1, h2]
    omega
  | [a, b], h => by
    have ha : a < 256 := h a (by simp)
    have hb : b < 256 := h b (by simp)
    have h1 := charSextet_sextetChar (a / 4) (by omega)
    have h2 := charSextet_sextetChar (a % 4 * 16 + b / 16) (by omega)
    have h3 := charSextet_sextetChar (b % 16 * 4) (by omega)
    have hne := sextetChar_ne_pad (b % 16 * 4) (by omega)
    simp [b64Encode, b64Decode, h1, h2, h3, hne]
    constructor <;> omega
  | a :: b :: c :: rest, h => by
    have ha : a < 256 := h a (by simp)
    have hb : b < 256 := h b (by simp)
    have hc : c < 256 := h c (by simp)
    have ih := b64Decode_b64Encode rest (fun x hx => h x (by simp [hx]))
    have h1 := charSextet_sextetChar (a / 4) (by omega)
    have h2 := charSextet_sextetChar (a % 4 * 16 + b / 16) (by omega)
    have h3 := charSextet_sextetChar (b % 16 * 4 + c / 64) (by omega)
    have h4 := charSextet_sextetChar (c % 64) (by omega)
    have hne3 := sextetChar_ne_pad (b % 16 * 4 + c / 64) (by omega)
    have hne4 := sextetChar_ne_pad (c % 64) (by omega)
    simp [b64Encode, b64Decode, h1, h2, h3, h4, hne3, hne4, ih]
    refine ⟨by omega, by omega, by omega⟩

/-- A `Char`'s scalar value avoids the surrogate range and stays below
`0x110000`. -/
theorem char_toNat_valid (c : Char) :
    c.toNat < 0xD800 ∨ (0xE000 ≤ c.toNat ∧ c.toNat < 0x110000) := by
  rcases c.valid with h | h
  · exact Or.inl (by exact_mod_cast h)
  · exact Or.inr ⟨by exact_mod_cast h.1, by exact_mod_cast h.2⟩

/-- UTF-16-LE encoding of a Unicode scalar value emits bytes. -/
theorem utf16EncodeScalar_isBytes (n : Nat) (hn : n < 0x110000) :
    IsBytes (utf16EncodeScalar n) := by
  intro x hx
  by_cases h1 : n < 0x10000
  · simp only [utf16EncodeScalar, if_pos h1, List.mem_cons, List.not_mem_nil,
      or_false] at hx
    omega
  · simp only [utf16EncodeScalar, if_neg h1, List.mem_cons, List.not_mem_nil,
      or_false] at hx
    omega

/-- Encoding a string as UTF-16-LE emits bytes. -/
theorem utf16Encode_isBytes : ∀ l : List Char, IsBytes (utf16Encode l)
  | [] => by intro x hx; simp [utf16Encode] at hx
  | c :: rest => by
    intro x hx
    simp only [utf16Encode, List.mem_append] at hx
    rcases hx with hx | hx
    · exact utf16EncodeScalar_isBytes c.toNat
        (by rcases char_toNat_valid c with h | h <;> omega) x hx
    · exact utf16Encode_isBytes rest x hx

/-- Decoding one encoded scalar value off the front of the byte
stream recovers the scalar and continues with the rest. -/
theorem utf16DecodeScalars_encodeScalar (n : Nat)
    (hval : n < 0xD800 ∨ (0xE000 ≤ n ∧ n < 0x110000)) (tail : List Nat) :
    utf16DecodeScalars (utf16EncodeScalar n ++ tail) =
      (utf16DecodeScalars tail).map (n :: ·) := by
  by_cases h1 : n < 0x10000
  · rw [show utf16EncodeScalar n = [n % 256, n / 256] from by
      simp [utf16EncodeScalar, h1]]
    simp only [List.cons_append, List.nil_append, utf16DecodeScalars]
    rw [show n % 256 + 256 * (n / 256) = n from by omega]
    rw [if_neg (by omega), if_neg (by omega)]
  · rw [show utf16EncodeScalar n =
        [(0xD800 + (n - 0x10000) / 0x400) % 256,
         (0xD800 + (n - 0x10000) / 0x400) / 256,
         (0xDC00 + (n - 0x10000) % 0x400) % 256,
         (0xDC00 + (n - 0x10000) % 0x400) / 256] from by
      simp [utf16EncodeScalar, h1]]
    simp only [List.cons_append, List.nil_append, utf16DecodeScalars]
    rw [show (0xD800 + (n - 0x10000) / 0x400) % 256 +
        256 * ((0xD800 + (n - 0x10000) / 0x400) / 256) =
        0xD800 + (n - 0x10000) / 0x400 from by omega]
    rw [if_pos (by omega : 0xD800 ≤ 0xD800 + (n - 0x10000) / 0x400 ∧
        0xD800 + (n - 0x10000) / 0x400 < 0xDC00)]
    simp only [utf16DecodeLow]
    rw [show (0xDC00 + (n - 0x10000) % 0x400) % 256 +
        256 * ((0xDC00 + (n - 0x10000) % 0x400) / 256) =
        0xDC00 + (n - 0x10000) % 0x400 from by omega]
    rw [if_pos (by omega : 0xDC00 ≤ 0xDC00 + (n - 0x10000) % 0x400 ∧
        0xDC00 + (n - 0x10000) % 0x400 < 0xE000)]
    rw [show 0x10000 + (0xD800 + (n - 0x10000) / 0x400 - 0xD800) * 0x400 +
        (0xDC00 + (n - 0x10000) % 0x400 - 0xDC00) = n from by omega]

/-- UTF-16-LE decoding inverts encoding, at the scalar level. -/
theorem utf16DecodeScalars_utf16Encode : ∀ l : List Char,
    utf16DecodeScalars (utf16Encode l) = some (l.map Char.toNat)
  | [] => by simp [utf16Encode, utf16DecodeScalars]
  | c :: rest => by
    have ih := utf16DecodeScalars_utf16Encode rest
    simp only [utf16Encode,
      utf16DecodeScalars_encodeScalar c.toNat (char_toNat_valid c) _, ih,
      List.map_cons]
    rfl

/-- A `Char`'s scalar value converts back to the same `Char`. -/
theorem scalarToChar_toNat (c : Char) : scalarToChar c.toNat = some c := by
  have hv : c.toNat.isValidChar := by
    rcases c.valid with h | h
    · exact Or.inl (by exact_mod_cast h)
    · exact Or.inr ⟨by exact_mod_cast h.1, by exact_mod_cast h.2⟩
  simp [scalarToChar, hv, Char.ofNat_toNat]

/-- Mapping `scalarToChar` over valid scalar values recovers the characters. -/
theorem mapM_scalarToChar : ∀ l : List Char,
    (l.map Char.toNat).mapM scalarToChar = some l
  | [] => rfl
  | c :: rest => by
    rw [List.map_cons, List.mapM_cons, scalarToChar_toNat,
      mapM_scalarToChar rest]
    rfl

/-- Python `bytes.decode("utf-16-le")` inverts `str.encode("utf-16-le")`. -/
theorem utf16Decode_utf16Encode (l : List Char) :
    utf16Decode (utf16Encode l) = some l := by
  rw [utf16Decode, utf16DecodeScalars_utf16Encode]
  show (l.map Char.toNat).mapM scalarToChar = some l
  exact mapM_scalarToChar l

/-- C1: For every string `s`, unprotecting the token produced by
protecting `s` returns exactly `s`, for any machine-bound DPAPI
facility satisfying its platform contract — `protect_string` is a
function of the plaintext plus that machine-bound facility only. -/
theorem protect_unprotect_roundtrip (encrypt decrypt : List Nat → List Nat)
    (hC : DpapiContract encrypt decrypt) (s : String) :
    unprotectString decrypt (protectString encrypt s) = some s := by
  obtain ⟨hBytes, hInv⟩ := hC (utf16Encode s.data) (utf16Encode_isBytes s.data)
  show (b64Decode (b64Encode (encrypt (utf16Encode s.data)))).bind _ = some s
  rw [b64Decode_b64Encode _ hBytes]
  show (utf16Decode (decrypt (encrypt (utf16Encode s.data)))).bind _ = some s
  rw [hInv, utf16Decode_utf16Encode]
  rfl

/-- Witness for C1: a concrete cipher pair (byte-string reversal,
which is its own inverse and preserves byte-ness) and a concrete
secret. -/
theorem protect_unprotect_roundtrip_witness :
    DpapiContract List.reverse List.reverse ∧
    unprotectString List.reverse (protectString List.reverse "hunter2") =
      some "hunter2" := by
  have hc : DpapiContract List.reverse List.reverse := by
    intro b hb
    exact ⟨fun x hx => hb x (by simpa using hx), by simp⟩
  exact ⟨hc, protect_unprotect_roundtrip List.reverse List.reverse hc "hunter2"⟩

/-- The `Char` order versus scalar values. -/
theorem charLe_toNat {a c : Char} : a ≤ c ↔ a.toNat ≤ c.toNat := by
  rw [Char.le_def]
  exact ⟨fun h => by exact_mod_cast h, fun h => by exact_mod_cast h⟩

/-- The `isSlugChar` test in terms of scalar values. -/
theorem isSlugChar_iff (c : Char) :
    isSlugChar c = true ↔
      (97 ≤ c.toNat ∧ c.toNat ≤ 122) ∨ (48 ≤ c.toNat ∧ c.toNat ≤ 57) := by
  have ha : ('a').toNat = 97 := rfl
  have hz : ('z').toNat = 122 := rfl
  have h0 : ('0').toNat = 48 := rfl
  have h9 : ('9').toNat = 57 := rfl
  simp only [isSlugChar, Bool.or_eq_true, decide_eq_true_eq, charLe_toNat,
    ha, hz, h0, h9]

/-- The `isAlnumASCII` test in terms of scalar values. -/
theorem isAlnumASCII_iff (c : Char) :
    isAlnumASCII c = true ↔
      (97 ≤ c.toNat ∧ c.toNat ≤ 122) ∨ (65 ≤ c.toNat ∧ c.toNat ≤ 90) ∨
      (48 ≤ c.toNat ∧ c.toNat ≤ 57) := by
  have ha : ('a').toNat = 97 := rfl
  have hz : ('z').toNat = 122 := rfl
  have hA : ('A').toNat = 65 := rfl
  have hZ : ('Z').toNat = 90 := rfl
  have h0 : ('0').toNat = 48 := rfl
  have h9 : ('9').toNat = 57 := rfl
  simp only [isAlnumASCII, Bool.or_eq_true, decide_eq_true_eq, charLe_toNat,
    ha, hz, hA, hZ, h0, h9]
  tauto

/-- The scalar value of `pyLowerChar`. -/
theorem toNat_pyLowerChar (c : Char) :
    (pyLowerChar c).toNat =
      if 65 ≤ c.toNat ∧ c.toNat ≤ 90 then c.toNat + 32 else c.toNat := by
  have hA : ('A').toNat = 65 := rfl
  have hZ : ('Z').toNat = 90 := rfl
  unfold pyLowerChar
  by_cases h : 'A' ≤ c ∧ c ≤ 'Z'
  · have h1 : 65 ≤ c.toNat := hA ▸ charLe_toNat.mp h.1
    have h2 : c.toNat ≤ 90 := hZ ▸ charLe_toNat.mp h.2
    rw [if_pos h, if_pos ⟨h1, h2⟩]
    have hv : (c.toNat + 32).isValidChar := Or.inl (by omega)
    show (Char.ofNat (c.toNat + 32)).toNat = c.toNat + 32
    simp only [Char.ofNat]
    rw [dif_pos hv]
    rfl
  · rw [if_neg h, if_neg (by
      intro hc
      exact h ⟨charLe_toNat.mpr (by omega), charLe_toNat.mpr (by omega)⟩)]

/-- If lower-casing a character lands in the slug alphabet, the
character was ASCII alphanumeric. -/
theorem isAlnumASCII_of_isSlugChar_pyLowerChar (c : Char)
    (h : isSlugChar (pyLowerChar c) = true) : isAlnumASCII c = true := by
  rw [isSlugChar_iff, toNat_pyLowerChar] at h
  rw [isAlnumASCII_iff]
  by_cases hc : 65 ≤ c.toNat ∧ c.toNat ≤ 90
  · rw [if_pos hc] at h
    omega
  · rw [if_neg hc] at h
    omega

/-- Every character the regex substitution emits is a slug character
or the replacement hyphen. -/
theorem collapseAux_mem : ∀ (inRun : Bool) (l : List Char) (c : Char),
    c ∈ collapseAux inRun l → isSlugChar c = true ∨ c = '-'
  | _, [], c => by simp [collapseAux]
  | inRun, d :: rest, c => by
    intro h
    by_cases hd : isSlugChar d = true
    · rw [show collapseAux inRun (d :: rest) = d :: collapseAux false rest from by
        simp [collapseAux, hd]] at h
      rcases List.mem_cons.mp h with rfl | h
      · exact Or.inl hd
      · exact collapseAux_mem false rest c h
    · cases inRun with
      | true =>
        rw [show collapseAux true (d :: rest) = collapseAux true rest from by
          simp [collapseAux, hd]] at h
        exact collapseAux_mem true rest c h
      | false =>
        rw [show collapseAux false (d :: rest) = '-' :: collapseAux true rest from by
          simp [collapseAux, hd]] at h
        rcases List.mem_cons.mp h with rfl | h
        · exact Or.inr rfl
        · exact collapseAux_mem true rest c h

/-- Inside a replaced run, the next emitted character is a slug
character (never a hyphen). -/
theorem collapseAux_true_head : ∀ (l : List Char) (c : Char),
    (collapseAux true l).head? = some c → isSlugChar c = true
  | [], c => by simp [collapseAux]
  | d :: rest, c => by
    intro h
    by_cases hd : isSlugChar d = true
    · rw [show collapseAux true (d :: rest) = d :: collapseAux false rest from by
        simp [collapseAux, hd]] at h
      simp only [List.head?_cons, Option.some.injEq] at h
      exact h ▸ hd
    · rw [show collapseAux true (d :: rest) = collapseAux true rest from by
        simp [collapseAux, hd]] at h
      exact collapseAux_true_head rest c h

/-- The regex substitution never emits two adjacent hyphens. -/
theorem collapseAux_chain : ∀ (inRun : Bool) (l : List Char),
    List.Chain' (fun a b => ¬(a = '-' ∧ b = '-')) (collapseAux inRun l)
  | _, [] => by simp [collapseAux]
  | inRun, d :: rest => by
    by_cases hd : isSlugChar d = true
    · rw [show collapseAux inRun (d :: rest) = d :: collapseAux false rest from by
        simp [collapseAux, hd]]
      rw [List.chain'_cons']
      refine ⟨?_, collapseAux_chain false rest⟩
      intro y _
      intro hcon
      rw [hcon.1] at hd
      simp [isSlugChar] at hd
    · cases inRun with
      | true =>
        rw [show collapseAux true (d :: rest) = collapseAux true rest from by
          simp [collapseAux, hd]]
        exact collapseAux_chain true rest
      | false =>
        rw [show collapseAux false (d :: rest) = '-' :: collapseAux true rest from by
          simp [collapseAux, hd]]
        rw [List.chain'_cons']
        refine ⟨?_, collapseAux_chain true rest⟩
        intro y hy
        intro hcon
        have := collapseAux_true_head rest y hy
        rw [hcon.2] at this
        simp [isSlugChar] at this

/-- Stripping only removes characters. -/
theorem mem_pyStripWith (p : Char → Bool) (l : List Char) (c : Char)
    (h : c ∈ pyStripWith p l) : c ∈ l := by
  simp only [pyStripWith, List.mem_reverse] at h
  have h1 := (List.dropWhile_sublist _).subset h
  rw [List.mem_reverse] at h1
  exact (List.dropWhile_sublist _).subset h1

/-- The head surviving `dropWhile` fails the predicate. -/
theorem head_dropWhile_not (p : Char → Bool) : ∀ (l : List Char) (c : Char),
    (List.dropWhile p l).head? = some c → p c = false
  | [], c => by simp
  | d :: rest, c => by
    intro h
    by_cases hd : p d
    · rw [List.dropWhile_cons_of_pos hd] at h
      exact head_dropWhile_not p rest c h
    · rw [List.dropWhile_cons_of_neg hd] at h
      simp only [List.head?_cons, Option.some.injEq] at h
      subst h
      exact Bool.not_eq_true _ ▸ (by simpa using hd)

/-- A nonempty `dropWhile` keeps the last element. -/
theorem getLast_dropWhile (p : Char → Bool) : ∀ l : List Char,
    List.dropWhile p l ≠ [] → (List.dropWhile p l).getLast? = l.getLast?
  | [], h => by simp at h
  | d :: rest, h => by
    by_cases hd : p d
    · rw [List.dropWhile_cons_of_pos hd] at h ⊢
      have hrest : rest ≠ [] := by
        intro he
        rw [he] at h
        simp at h
      obtain ⟨a, t, rfl⟩ := List.exists_cons_of_ne_nil hrest
      rw [getLast_dropWhile p (a :: t) h, List.getLast?_cons_cons]
    · rw [List.dropWhile_cons_of_neg hd]

/-- The first character of a stripped list fails the predicate. -/
theorem pyStripWith_head (p : Char → Bool) (l : List Char) (c : Char)
    (h : (pyStripWith p l).head? = some c) : p c = false := by
  rw [pyStripWith, List.head?_reverse] at h
  have hne : List.dropWhile p (l.dropWhile p).reverse ≠ [] := by
    intro he
    rw [he] at h
    simp at h
  rw [getLast_dropWhile p _ hne, List.getLast?_reverse] at h
  exact head_dropWhile_not p _ c h

/-- The last character of a stripped list fails the predicate. -/
theorem pyStripWith_getLast (p : Char → Bool) (l : List Char) (c : Char)
    (h : (pyStripWith p l).getLast? = some c) : p c = false := by
  rw [pyStripWith, List.getLast?_reverse] at h
  exact head_dropWhile_not p _ c h

/-- The `dropWhile` operation preserves `Chain'`. -/
theorem chain'_dropWhile (R : Char → Char → Prop) (p : Char → Bool) :
    ∀ l : List Char, List.Chain' R l → List.Chain' R (List.dropWhile p l)
  | [], h => by simp
  | d :: rest, h => by
    by_cases hd : p d
    · rw [List.dropWhile_cons_of_pos hd]
      exact chain'_dropWhile R p rest (List.chain'_cons'.mp h).2
    · rwa [List.dropWhile_cons_of_neg hd]

/-- Reversal preserves `Chain'` for a symmetric relation. -/
theorem chain'_reverse_symm (R : Char → Char → Prop)
    (hsymm : ∀ a b, R a b → R b a) (l : List Char) (h : List.Chain' R l) :
    List.Chain' R l.reverse := by
  rw [List.chain'_reverse]
  exact h.imp (fun a b hab => hsymm a b hab)

/-- Stripping preserves `Chain'` for a symmetric relation. -/
theorem chain'_pyStripWith (R : Char → Char → Prop)
    (hsymm : ∀ a b, R a b → R b a) (p : Char → Bool) (l : List Char)
    (h : List.Chain' R l) : List.Chain' R (pyStripWith p l) := by
  unfold pyStripWith
  exact chain'_reverse_symm R hsymm _
    (chain'_dropWhile R p _
      (chain'_reverse_symm R hsymm _ (chain'_dropWhile R p _ h)))

/-- On input with no slug characters, the substitution yields nothing
(inside a run) or a single hyphen. -/
theorem collapseAux_no_slug : ∀ l : List Char,
    (∀ c ∈ l, isSlugChar c = false) →
    collapseAux true l = [] ∧
      collapseAux false l = (if l = [] then [] else ['-'])
  | [], _ => by simp [collapseAux]
  | d :: rest, h => by
    have hd : isSlugChar d = false := h d (by simp)
    have hd' : ¬ isSlugChar d = true := by simp [hd]
    have ih := collapseAux_no_slug rest (fun c hc => h c (by simp [hc]))
    constructor
    · rw [show collapseAux true (d :: rest) = collapseAux true rest from by
        simp [collapseAux, hd']]
      exact ih.1
    · rw [show collapseAux false (d :: rest) = '-' :: collapseAux true rest from by
        simp [collapseAux, hd']]
      rw [ih.1]
      simp

/-- C10: For every input string, `slugify_user` returns a non-empty
string of only lower-case ASCII letters, digits and hyphens, with no
leading or trailing hyphen and no two consecutive hyphens; an input
with no ASCII-alphanumeric character at all yields exactly `"user"`. -/
theorem slugify_user_invariants (s : String) :
    slugifyUser s ≠ "" ∧
    (∀ c ∈ (slugifyUser s).data, isSlugChar c = true ∨ c = '-') ∧
    (slugifyUser s).data.head? ≠ some '-' ∧
    (slugifyUser s).data.getLast? ≠ some '-' ∧
    List.Chain' (fun a b => ¬(a = '-' ∧ b = '-')) (slugifyUser s).data ∧
    ((∀ c ∈ s.data, isAlnumASCII c = false) → slugifyUser s = "user") := by
  by_cases hempty :
      pyStripWith (· = '-') (collapseRuns (pyLowerList (pyStripList s.data))) = []
  · rw [show slugifyUser s = "user" from by simp [slugifyUser, hempty]]
    refine ⟨by decide, by decide, by decide, by decide, ?_, fun _ => rfl⟩
    show List.Chain' (fun a b => ¬(a = '-' ∧ b = '-')) ['u', 's', 'e', 'r']
    simp [List.chain'_cons]
  · have hdata : (slugifyUser s).data =
        pyStripWith (· = '-') (collapseRuns (pyLowerList (pyStripList s.data))) := by
      simp [slugifyUser, hempty]
    refine ⟨?_, ?_, ?_, ?_, ?_, ?_⟩
    · intro hcon
      apply hempty
      rw [← hdata]
      rw [hcon]
    · intro c hc
      rw [hdata] at hc
      exact collapseAux_mem false _ c (mem_pyStripWith _ _ c hc)
    · intro hcon
      rw [hdata] at hcon
      have := pyStripWith_head (· = '-') _ _ hcon
      simp at this
    · intro hcon
      rw [hdata] at hcon
      have := pyStripWith_getLast (· = '-') _ _ hcon
      simp at this
    · rw [hdata]
      exact chain'_pyStripWith _ (fun a b hab hcon => hab ⟨hcon.2, hcon.1⟩) _ _
        (collapseAux_chain false _)
    · intro halnum
      exfalso
      apply hempty
      have hnoslug : ∀ c ∈ pyLowerList (pyStripList s.data), isSlugChar c = false := by
        intro c hc
        rw [pyLowerList, List.mem_map] at hc
        obtain ⟨d, hd, rfl⟩ := hc
        have hd' : d ∈ s.data := mem_pyStripWith _ _ _ hd
        by_contra hslug
        have : isSlugChar (pyLowerChar d) = true := by
          cases hsl : isSlugChar (pyLowerChar d) with
          | true => rfl
          | false => exact absurd hsl hslug
        have := isAlnumASCII_of_isSlugChar_pyLowerChar d this
        rw [halnum d hd'] at this
        exact Bool.false_ne_true this
      have hcoll := (collapseAux_no_slug _ hnoslug).2
      rw [collapseRuns, hcoll]
      by_cases hnil : pyLowerList (pyStripList s.data) = []
      · rw [if_pos hnil]
        rfl
      · rw [if_neg hnil]
        rfl

/-- Witness for C10: a concrete all-punctuation input yields
`"user"`. -/
theorem slugify_user_invariants_witness :
    (∀ c ∈ ("!! ??" : String).data, isAlnumASCII c = false) ∧
    slugifyUser "!! ??" = "user" :=
  ⟨by decide, (slugify_user_invariants "!! ??").2.2.2.2.2 (by decide)⟩
